import Mathlib

/-!
Shallow embedding of the `callback` Go package (round-robin message dispatch
with per-endpoint circuit breakers).

Modelling conventions:
* `Time` is `Int`, Go's monotonic clock in nanoseconds; Go's zero `time.Time{}`
  is `0`.  `t1.After t2` is the strict comparison `t2 < t1`, `t1.Before t2` is
  `t1 < t2`, exactly as in Go's `time` package.
* Go channels carrying payloads are modelled as lists (`messageQueue`); the
  worker's `stop` channel is modelled by the flag `stopDefined`, recording
  whether the channel is non-nil (Go's zero value for a channel is `nil`, and
  `close(nil)` panics with "close of nil channel").
* Go panics and out-of-range slice indexing are modelled with
  `Except String`: `Except.error msg` is a runtime panic carrying `msg`,
  `Except.ok` is normal control flow.  A Go function returning `error` returns
  an `Option String` inside the `ok` case (`none` = `nil` error).
* The `atomic.Int32` round-robin cursor is an `Int` together with explicit
  32-bit wrap-around (`wrap32`); Go's `%` on `int` is truncated division
  remainder, i.e. `Int.tmod`.
* Synchronisation primitives (`sync.Mutex`, goroutine scheduling) are elided:
  every operation is modelled as the atomic state transformation the Go code
  performs under its lock.
-/

/-- Time in nanoseconds, as Go's `time.Time`/`time.Duration`; `0` is the zero time. -/
abbrev Time := Int

/-- An opaque byte-string payload (`[]byte`). -/
abbrev Payload := List Nat

namespace Callback

/-! ### Result envelope types (`data.go`) -/

/-- Go `type Response struct { Data []byte }`. -/
structure Response where
  Data : Payload
deriving DecidableEq, Repr

/-- Go `type Error struct { Code int; Message string; Critical bool }`. -/
structure Error where
  Code : Int
  Message : String
  Critical : Bool
deriving DecidableEq, Repr

/-- Go `type Data struct { Point string; Success bool; Response *Response; Error *Error }`.
`none` models a nil pointer. -/
structure Data where
  Point : String
  Success : Bool
  Response : Option Response
  Error : Option Error
deriving DecidableEq, Repr

/-! ### Worker state (`round_robin.go` worker file) -/

/-- The state of one `Worker`.  `id` tracks object identity (which `NewWorker`
allocation a list entry came from), so that "does not recreate the worker"
claims are expressible.  `stopDefined` records whether the `stop` channel is
non-nil. -/
structure Worker where
  point : String
  id : Nat
  messageQueue : List Payload
  errorTimestamps : List Time
  blockedUntil : Time
  stopDefined : Bool
deriving DecidableEq, Repr

/-- The retry configuration a worker reads through its back-reference to the
`Callback` (`w.callback.retryWindow` etc.). -/
structure Config where
  retryLimit : Int
  retryTimeout : Time
  retryWindow : Time
deriving DecidableEq, Repr

/-- Go `NewWorker(c, point)`: fresh queue, empty error window, zero
`blockedUntil`; the `stop` channel field is never assigned, so it stays at its
zero value `nil` (`stopDefined := false`).  `id` is the identity of this
allocation. -/
def NewWorker (point : String) (id : Nat) : Worker :=
  { point := point
    id := id
    messageQueue := []
    errorTimestamps := []
    blockedUntil := 0
    stopDefined := false }

/-- Go `Worker.Inc`: drop error timestamps at or before `now - retryWindow`
(`timestamp.After(windowStart)` keeps strictly later ones), append `now`; if
the count now exceeds `retryLimit` then, when `now.After(blockedUntil)`, set
`blockedUntil = now + retryTimeout` and return `true`; otherwise return
`now.Before(blockedUntil)`.  Returns the Go return value paired with the
updated worker. -/
def Worker.Inc (cfg : Config) (now : Time) (w : Worker) : Bool × Worker :=
  let windowStart := now - cfg.retryWindow
  let filtered := w.errorTimestamps.filter (fun t => windowStart < t)
  let ts := filtered ++ [now]
  if (ts.length : Int) > cfg.retryLimit then
    if w.blockedUntil < now then
      (true, { w with errorTimestamps := ts, blockedUntil := now + cfg.retryTimeout })
    else
      (true, { w with errorTimestamps := ts })
  else
    (decide (now < w.blockedUntil), { w with errorTimestamps := ts })

/-- Go `Worker.Reset`: clear the error window and reset `blockedUntil` to the
zero time. -/
def Worker.Reset (w : Worker) : Worker :=
  { w with errorTimestamps := [], blockedUntil := 0 }

/-- Go `Worker.Close`: `close(w.stop)`.  Closing a nil channel is a runtime
panic, so this succeeds only when the `stop` channel was ever made. -/
def Worker.Close (w : Worker) : Except String Unit :=
  if w.stopDefined then Except.ok () else Except.error "close of nil channel"

/-- The argument union of `Worker.sendReturn` (`result interface{}`): the call
sites pass `*Response` or `*Error`; `other` stands for any value of a type
matching neither interface. -/
inductive SendArg where
  | resp (r : Response)
  | err (e : Error)
  | other
deriving DecidableEq, Repr

/-- Go `Worker.sendReturn`: type-switch on the result; a `ResponseInterface`
value gives a success envelope, an `ErrorInterface` value a failure envelope,
anything else a failure envelope with the "Unknown result type" error (whose
`Code` and `Critical` stay at their zero values). -/
def Worker.sendReturn (w : Worker) (result : SendArg) : Data :=
  match result with
  | .resp r => { Point := w.point, Success := true, Response := some r, Error := none }
  | .err e => { Point := w.point, Success := false, Response := none, Error := some e }
  | .other =>
      { Point := w.point, Success := false, Response := none
        Error := some { Code := 0, Message := "Unknown result type", Critical := false } }

/-! ### Worker processing loop (`Worker.handler`) -/

/-- The outcome of one synchronous `handlerRequest` (transport) call, as seen
at the loop boundary: a response, an `error` return, or an uncaught panic. -/
inductive Outcome where
  | success (res : Payload)
  | failure (msg : String)
  | panicked (msg : String)
deriving DecidableEq, Repr

/-- One queue entry together with the environment's behaviour when the worker
processes it: the wall-clock instant of processing and the transport outcome. -/
structure QEntry where
  now : Time
  msg : Payload
  outcome : Outcome
deriving DecidableEq, Repr

/-- One iteration of `Worker.handler` on a received message.  On an `error`
return: `w.Inc()` then a critical `[ERROR]` envelope.  On success: `w.Reset()`
then a success envelope.  On a panic: the deferred `recover` sends a critical
`[PANIC]` envelope and restarts the loop; the breaker state is untouched. -/
def Worker.handlerStep (cfg : Config) (w : Worker) (e : QEntry) : Data × Worker :=
  match e.outcome with
  | .success res => (w.Reset.sendReturn (.resp { Data := res }), w.Reset)
  | .failure m =>
      let w' := (w.Inc cfg e.now).2
      (w'.sendReturn (.err { Code := 0, Message := "[ERROR] " ++ m, Critical := true }), w')
  | .panicked m =>
      (w.sendReturn (.err { Code := 0, Message := "[PANIC] " ++ m, Critical := true }), w)

/-- The worker's processing loop over its queued messages: each entry yields
exactly one envelope on the shared return channel; after a panic the recovery
code starts a new loop instance over the untouched remainder of the queue. -/
def Worker.processQueue (cfg : Config) (w : Worker) : List QEntry → List Data × Worker
  | [] => ([], w)
  | e :: rest =>
      let (d, w') := w.handlerStep cfg e
      let (ds, w'') := w'.processQueue cfg rest
      (d :: ds, w'')

/-! ### Dispatcher state and the enum constants (`options.go`) -/

/-- Go `var RoundRobin DeliveryMode = "round_robin"`. -/
def RoundRobin : String := "round_robin"

/-- Go `var Broadcast DeliveryMode = "broadcast"`. -/
def Broadcast : String := "broadcast"

/-- Go `var REST Transport = "REST"`. -/
def REST : String := "REST"

/-- Go `var QUIC Transport = "QUIC"`. -/
def QUIC : String := "QUIC"

/-- Go `var Repeat RetryMode = "repeat"`. -/
def Repeat : String := "repeat"

/-- Go `var Next RetryMode = "next"`. -/
def Next : String := "next"

/-- The `Callback` struct.  `roundRobinIndex` is the value of the
`atomic.Int32` cursor (an integer in `[-2^31, 2^31)`); the mutex, the return
channel and the user callback function are not part of the modelled state. -/
structure State where
  transport : String
  deliveryMode : String
  endPoints : List Worker
  retryLimit : Int
  retryTimeout : Time
  retryWindow : Time
  roundRobinIndex : Int
deriving DecidableEq, Repr

/-- Two's-complement wrap-around of Go `int32` arithmetic: the unique value in
`[-2^31, 2^31)` congruent to `x` mod `2^32`. -/
def wrap32 (x : Int) : Int :=
  (x + 2 ^ 31) % 2 ^ 32 - 2 ^ 31

/-- The error `roundRobin` returns when no worker is available. -/
def allBlockedMsg : String := "all endpoints are blocked due to unavailability"

/-- The loop body of `Callback.roundRobin`, fuelled by the remaining iteration
count of `for i := 0; i < len(c.endPoints); i++`.  Each iteration computes
`index := int(c.roundRobinIndex.Add(1)-1) % len(c.endPoints)` in `int32`
arithmetic with Go's truncated `%` (`Int.tmod`), indexes the slice (a runtime
panic if the index is out of range), skips the worker unless
`time.Now().After(worker.blockedUntil)`, and otherwise enqueues the payload
there and returns `nil`. -/
def rrLoop (now : Time) (data : Payload) (eps : List Worker) (cursor : Int) :
    Nat → Except String (Option String × List Worker × Int)
  | 0 => Except.ok (some allBlockedMsg, eps, cursor)
  | fuel + 1 =>
      let newCursor := wrap32 (cursor + 1)
      let index := Int.tmod (wrap32 (newCursor - 1)) (eps.length : Int)
      if 0 ≤ index ∧ index < (eps.length : Int) then
        match eps.get? index.toNat with
        | some worker =>
            if worker.blockedUntil < now then
              Except.ok (none,
                eps.set index.toNat
                  { worker with messageQueue := worker.messageQueue ++ [data] },
                newCursor)
            else
              rrLoop now data eps newCursor fuel
        | none => Except.error "runtime error: index out of range"
      else
        Except.error "runtime error: index out of range"

/-- Go `Callback.roundRobin(data)`: run the selection loop over the current
endpoint list; the `Option String` is the Go `error` return (`none` = `nil`),
the outer `Except` a runtime panic. -/
def State.roundRobin (now : Time) (data : Payload) (c : State) :
    Except String (Option String × State) :=
  (rrLoop now data c.endPoints c.roundRobinIndex c.endPoints.length).map
    (fun r => (r.1, { c with endPoints := r.2.1, roundRobinIndex := r.2.2 }))

/-- Go `Callback.Emit(data)`: in round-robin mode it calls `c.roundRobin(data)`
discarding its error result and returns `nil`; in broadcast mode (and for any
other mode value) it returns `nil` without doing anything. -/
def State.Emit (now : Time) (data : Payload) (c : State) :
    Except String (Option String × State) :=
  if c.deliveryMode = RoundRobin then
    (c.roundRobin now data).map (fun r => (none, r.2))
  else
    Except.ok (none, c)

/-- A sequence of successive `Emit` calls, one per payload, at a fixed clock
reading. -/
def State.emitSeq (now : Time) (c : State) : List Payload → Except String State
  | [] => Except.ok c
  | d :: ds => do
      let r ← c.Emit now d
      r.2.emitSeq now ds

/-! ### Endpoint lifecycle (`Callback.findWorkerIndex` / `DeleteEndpoint` /
`SyncEndPoint`) -/

/-- Go `Callback.findWorkerIndex`: the index of the first worker with the given
point, or `-1`. -/
def State.findWorkerIndex (c : State) (endPoint : String) : Int :=
  match c.endPoints.findIdx? (fun w => w.point = endPoint) with
  | some i => (i : Int)
  | none => -1

/-- Go `Callback.DeleteEndpoint(host)`: no-op when the host has no worker;
otherwise `Close` the worker (which can panic, see `Worker.Close`) and splice
it out of the slice. -/
def State.DeleteEndpoint (host : String) (c : State) : Except String State :=
  match c.endPoints.findIdx? (fun w => w.point = host) with
  | none => Except.ok c
  | some i =>
      match (c.endPoints.get? i).map Worker.Close with
      | some (Except.ok _) => Except.ok { c with endPoints := c.endPoints.eraseIdx i }
      | some (Except.error m) => Except.error m
      | none => Except.error "runtime error: index out of range"

/-- The removal pass of `SyncEndPoint`: the Go loop runs from the highest index
down to 0, so the recursion closes-and-removes in the tail (higher indices)
before examining the head.  A worker whose point is absent from `hosts` is
`Close`d (propagating the panic) and dropped. -/
def syncRemove (hosts : List String) : List Worker → Except String (List Worker)
  | [] => Except.ok []
  | w :: rest => do
      let rest' ← syncRemove hosts rest
      if hosts.contains w.point then
        Except.ok (w :: rest')
      else
        match w.Close with
        | Except.ok _ => Except.ok rest'
        | Except.error m => Except.error m

/-- The addition pass of `SyncEndPoint`: for each host in order, append a fresh
`NewWorker` unless some live worker already has that point.  `fresh` is the
supply of allocation identities, threaded left to right. -/
def syncAdd (eps : List Worker) (fresh : Nat) : List String → List Worker × Nat
  | [] => (eps, fresh)
  | h :: t =>
      if eps.any (fun w => w.point = h) then
        syncAdd eps fresh t
      else
        syncAdd (eps ++ [NewWorker h fresh]) (fresh + 1) t

/-- Go `Callback.SyncEndPoint(hosts)`: remove (closing) the workers whose point
is not in `hosts`, then add a worker for every host that has none.  Returns the
new state together with the advanced allocation-identity supply. -/
def State.SyncEndPoint (hosts : List String) (c : State) (fresh : Nat) :
    Except String (State × Nat) := do
  let kept ← syncRemove hosts c.endPoints
  let (eps, fresh') := syncAdd kept fresh hosts
  Except.ok ({ c with endPoints := eps }, fresh')

/-! ### Options defaulting (`options.go`) -/

/-- Go `type Options struct`: enum fields are strings, durations are
nanosecond integers. -/
structure Options where
  Transport : String
  DeliveryMode : String
  RetryMode : String
  EndPoints : List String
  RetryLimit : Int
  RetryTimeout : Time
  RetryWindow : Time
deriving DecidableEq, Repr

/-- Go `time.Second` in nanoseconds. -/
def second : Int := 1000000000

/-- Go `defaultOptions(opt)`: every zero-valued field is replaced by its
default (`REST`, `RoundRobin`, `Next`, `5`, `5s`, `3s`); the rest, including
`EndPoints`, are left as given. -/
def defaultOptions (opt : Options) : Options :=
  let o1 := if opt.Transport = "" then { opt with Transport := REST } else opt
  let o2 := if o1.DeliveryMode = "" then { o1 with DeliveryMode := RoundRobin } else o1
  let o3 := if o2.RetryMode = "" then { o2 with RetryMode := Next } else o2
  let o4 := if o3.RetryLimit = 0 then { o3 with RetryLimit := 5 } else o3
  let o5 := if o4.RetryTimeout = 0 then { o4 with RetryTimeout := 5 * second } else o4
  let o6 := if o5.RetryWindow = 0 then { o5 with RetryWindow := 3 * second } else o5
  o6

/-! ### Derived notions and claim-wording reference definitions -/

/-- The availability check the router applies to a candidate:
`time.Now().After(worker.blockedUntil)`, i.e. `now` strictly after
`blockedUntil`. -/
def Worker.availableAt (w : Worker) (now : Time) : Prop :=
  w.blockedUntil < now

instance (w : Worker) (now : Time) : Decidable (w.availableAt now) :=
  inferInstanceAs (Decidable (_ < _))

/-- A sequence of recorded failures: fold `Worker.Inc` over the given clock
readings. -/
def Worker.incMany (cfg : Config) (w : Worker) : List Time → Worker
  | [] => w
  | t :: ts => Worker.incMany cfg (w.Inc cfg t).2 ts

/-- Reference definition following the claim's wording, for comparison with
`Worker.Inc`: "all stored failure timestamps *older than* now minus
retryWindow are dropped" — a timestamp is kept iff it is not strictly older
than `now - retryWindow`; the rest of the step is as the claim states it. -/
def Worker.IncClaim (cfg : Config) (now : Time) (w : Worker) : Bool × Worker :=
  let windowStart := now - cfg.retryWindow
  let kept := w.errorTimestamps.filter (fun t => ¬ (t < windowStart))
  let ts := kept ++ [now]
  if (ts.length : Int) > cfg.retryLimit then
    if w.blockedUntil < now then
      (true, { w with errorTimestamps := ts, blockedUntil := now + cfg.retryTimeout })
    else
      (true, { w with errorTimestamps := ts })
  else
    (decide (now < w.blockedUntil), { w with errorTimestamps := ts })

/-- Reference definition following the claim's wording for the router:
selection starts at the cursor position modulo `N` and advances by one per
attempt, for at most `fuel` attempts; a candidate is valid iff the current
time is strictly after its `blockedUntil`.  Returns the number of skipped
attempts before the first valid candidate, `none` when every attempt fails. -/
def selectOff (now : Time) (eps : List Worker) (s : Nat) : Nat → Option Nat
  | 0 => none
  | fuel + 1 =>
      match eps[s % eps.length]? with
      | some w =>
          if w.availableAt now then some 0
          else (selectOff now eps (s + 1) fuel).map (fun j => j + 1)
      | none => none

/-- Append `data` to the message queue of the worker at index `i` (identity on
an out-of-range index). -/
def enqueueAt (eps : List Worker) (i : Nat) (data : Payload) : List Worker :=
  match eps.get? i with
  | some w => eps.set i { w with messageQueue := w.messageQueue ++ [data] }
  | none => eps

/-! ### Concrete states used to evaluate the code on specific inputs -/

/-- A worker for point "http://a" blocked until time 100. -/
def wBlocked : Worker :=
  { point := "http://a", id := 0, messageQueue := [], errorTimestamps := []
    blockedUntil := 100, stopDefined := false }

/-- A round-robin dispatcher with the single blocked worker `wBlocked`. -/
def cBlocked : State :=
  { transport := REST, deliveryMode := RoundRobin, endPoints := [wBlocked]
    retryLimit := 5, retryTimeout := 5 * second, retryWindow := 3 * second
    roundRobinIndex := 0 }

/-- The same dispatcher with an empty endpoint set. -/
def cEmpty : State :=
  { cBlocked with endPoints := [] }

/-- Worker `wBlocked` with the zero (unblocked) deadline. -/
def wAvail : Worker :=
  { wBlocked with blockedUntil := 0 }

/-- The same dispatcher with the single available worker `wAvail`. -/
def cAvail : State :=
  { cBlocked with endPoints := [wAvail] }

/-- Three available workers behind a cursor that has wrapped past the `int32`
maximum into negative territory (the value reached after `2^31` increments). -/
def cWrapped : State :=
  { cBlocked with
    endPoints := [wAvail, { wAvail with point := "http://b", id := 1 },
                  { wAvail with point := "http://c", id := 2 }]
    roundRobinIndex := -2147483648 }

/-- A dispatcher holding exactly the worker `NewWorker "a" 0`. -/
def cA : State :=
  { cBlocked with endPoints := [NewWorker "a" 0] }

/-- State `cA` after a sync against `["a", "b"]`: the retained worker plus a fresh
worker for "b". -/
def cAB : State :=
  { cBlocked with endPoints := [NewWorker "a" 0, NewWorker "b" 1] }

/-! ### Helper lemmas -/

/-- Every queued entry yields exactly one envelope on the return channel. -/
theorem processQueue_length (cfg : Config) (w : Worker) (es : List QEntry) :
    (w.processQueue cfg es).1.length = es.length := by
  induction es generalizing w with
  | nil => rfl
  | cons e rest ih =>
      simp only [Worker.processQueue]
      exact congrArg Nat.succ (ih _)

/-- Folding `Inc` over an appended list of clock readings composes. -/
theorem incMany_append (cfg : Config) (a b : List Time) (w : Worker) :
    w.incMany cfg (a ++ b) = (w.incMany cfg a).incMany cfg b := by
  induction a generalizing w with
  | nil => rfl
  | cons t a ih => simpa [Worker.incMany] using ih _

/-- As long as the total failure count stays at or below the retry limit and
every failure lies inside the window of every later failure (`B` is the
common window start bound), folding `Inc` just appends the timestamps and the
worker never blocks. -/
theorem incMany_no_block (cfg : Config) (B : Time) (rest : List Time) :
    ∀ w : Worker, w.blockedUntil = 0 →
      (∀ x ∈ w.errorTimestamps, B < x) →
      (∀ t ∈ rest, B < t ∧ t - cfg.retryWindow ≤ B) →
      ((w.errorTimestamps.length + rest.length : Int) ≤ cfg.retryLimit) →
      w.incMany cfg rest = { w with errorTimestamps := w.errorTimestamps ++ rest } := by
  induction rest with
  | nil => intro w _ _ _ _; simp [Worker.incMany]
  | cons t0 rest ih =>
      intro w h0 hw hr hlen
      have hlc : (((t0 :: rest).length : Nat) : Int) = (rest.length : Int) + 1 := by
        simp
      rw [hlc] at hlen
      have hkeep : w.errorTimestamps.filter (fun x => decide (t0 - cfg.retryWindow < x)) =
          w.errorTimestamps := by
        refine List.filter_eq_self.mpr (fun x hx => ?_)
        have h1 := hw x hx
        have h2 := (hr t0 (List.mem_cons_self t0 rest)).2
        simp only [decide_eq_true_eq]
        linarith
      have hlapp : (((w.errorTimestamps ++ [t0]).length : Nat) : Int) =
          (w.errorTimestamps.length : Int) + 1 := by
        simp
      have hcount : ¬ (((w.errorTimestamps.filter
          (fun x => decide (t0 - cfg.retryWindow < x)) ++ [t0]).length : Int) > cfg.retryLimit) := by
        rw [hkeep, hlapp]
        have hn : (0 : Int) ≤ (rest.length : Int) := Int.ofNat_nonneg _
        omega
      have hstep : (w.Inc cfg t0).2 =
          { w with errorTimestamps := w.errorTimestamps ++ [t0] } := by
        simp only [Worker.Inc]
        rw [if_neg hcount, hkeep]
      have htail : w.incMany cfg (t0 :: rest) = ((w.Inc cfg t0).2).incMany cfg rest := rfl
      have hw' : ∀ x ∈ w.errorTimestamps ++ [t0], B < x := by
        intro x hx
        rcases List.mem_append.mp hx with hx | hx
        · exact hw x hx
        · rw [List.mem_singleton] at hx
          rw [hx]
          exact (hr t0 (List.mem_cons_self t0 rest)).1
      have hlen' : (((w.errorTimestamps ++ [t0]).length : Nat) : Int) + (rest.length : Int) ≤
          cfg.retryLimit := by
        rw [hlapp]
        omega
      rw [htail, hstep]
      rw [ih { w with errorTimestamps := w.errorTimestamps ++ [t0] } h0 hw'
        (fun u hu => hr u (List.mem_cons_of_mem t0 hu)) hlen']
      simp [List.append_assoc]

/-- Wrapping is the identity on values already in the `int32` range. -/
theorem wrap32_eq_self (x : Int) (h1 : -(2 ^ 31) ≤ x) (h2 : x < 2 ^ 31) : wrap32 x = x := by
  unfold wrap32
  omega

/-- Adding after wrapping is wrapping the sum: `int32` arithmetic is mod
`2^32`. -/
theorem wrap32_wrap32_add (a b : Int) : wrap32 (wrap32 a + b) = wrap32 (a + b) := by
  unfold wrap32
  omega

/-- Enqueueing only touches a message queue, so any per-worker function that
ignores the queue is preserved pointwise. -/
theorem enqueueAt_map {α : Type} (f : Worker → α)
    (hf : ∀ (w : Worker) (q : List Payload), f { w with messageQueue := q } = f w) :
    ∀ (eps : List Worker) (i : Nat) (d : Payload), (enqueueAt eps i d).map f = eps.map f := by
  intro eps
  induction eps with
  | nil => intro i d; rfl
  | cons w rest ih =>
      intro i d
      cases i with
      | zero => simp [enqueueAt, List.get?, hf]
      | succ i =>
          have h := ih i d
          simp only [enqueueAt, List.get?] at h ⊢
          cases hr : rest.get? i with
          | none =>
              simp only [hr]
          | some w0 =>
              simp only [hr] at h ⊢
              show f w :: List.map f (rest.set i { w0 with messageQueue := w0.messageQueue ++ [d] }) =
                f w :: List.map f rest
              rw [h]

/-- Enqueueing preserves the length of the worker list. -/
theorem enqueueAt_length (eps : List Worker) (i : Nat) (d : Payload) :
    (enqueueAt eps i d).length = eps.length := by
  unfold enqueueAt
  cases h : eps.get? i <;> simp

/-- Membership in an `enqueueAt` image reaches back to a worker of the
original list with the same blocked-until deadline. -/
theorem enqueueAt_blockedUntil (eps : List Worker) (i : Nat) (d : Payload) (w' : Worker)
    (hw' : w' ∈ enqueueAt eps i d) : ∃ w ∈ eps, w'.blockedUntil = w.blockedUntil := by
  unfold enqueueAt at hw'
  cases h : eps.get? i with
  | none => rw [h] at hw'; exact ⟨w', hw', rfl⟩
  | some w0 =>
      rw [h] at hw'
      rcases List.mem_or_eq_of_mem_set hw' with hm | he
      · exact ⟨w', hm, rfl⟩
      · exact ⟨w0, List.get?_mem h, by rw [he]⟩

/-- When the candidate at the starting position is available, the claim-level
selector succeeds immediately with zero skips. -/
theorem selectOff_head_avail (now : Time) (eps : List Worker) (s fuel : Nat)
    (hL : 0 < eps.length) (hav : ∀ w ∈ eps, w.blockedUntil < now) :
    selectOff now eps s (fuel + 1) = some 0 := by
  have hlt : s % eps.length < eps.length := Nat.mod_lt s hL
  have hget : eps[s % eps.length]? = some (eps[s % eps.length]) :=
    List.getElem?_eq_getElem hlt
  simp only [selectOff, hget]
  rw [if_pos]
  exact hav _ (List.getElem_mem hlt)

/-- The `int32`/truncated-`%` selection loop refines the claim-level selector
as long as the cursor, starting from a nonnegative value, cannot wrap during
the call: it delivers to position `(s + j) mod N` where `j` is the number of
skipped attempts, advancing the cursor once per attempt, and reports the
all-blocked error after `fuel` failed attempts. -/
theorem rrLoop_spec (now : Time) (data : Payload) (eps : List Worker) :
    ∀ (fuel s : Nat), 0 < eps.length → ((s : Int) + (fuel : Int) < 2 ^ 31) →
      rrLoop now data eps (s : Int) fuel =
        (match selectOff now eps s fuel with
          | some j =>
              Except.ok (none, enqueueAt eps ((s + j) % eps.length) data, ((s : Int) + j + 1))
          | none => Except.ok (some allBlockedMsg, eps, (s : Int) + fuel)) := by
  intro fuel
  induction fuel with
  | zero =>
      intro s hL hb
      simp [rrLoop, selectOff]
  | succ fuel ih =>
      intro s hL hb
      have hs0 : (0 : Int) ≤ (s : Int) := Int.ofNat_nonneg s
      have hf0 : (0 : Int) ≤ (fuel : Int) := Int.ofNat_nonneg fuel
      have hb2 : (s : Int) + ((fuel : Int) + 1) < 2 ^ 31 := by push_cast at hb; omega
      have hs1 : wrap32 ((s : Int) + 1) = (s : Int) + 1 :=
        wrap32_eq_self _ (by omega) (by omega)
      have hidx0 : wrap32 (wrap32 ((s : Int) + 1) - 1) = (s : Int) := by
        rw [show wrap32 ((s : Int) + 1) - 1 = wrap32 ((s : Int) + 1) + (-1) from by ring,
          wrap32_wrap32_add,
          show (s : Int) + 1 + (-1) = (s : Int) from by ring]
        exact wrap32_eq_self _ (by omega) (by omega)
      have htmod : Int.tmod ((s : Int)) ((eps.length : Nat) : Int) =
          ((s % eps.length : Nat) : Int) := (Int.ofNat_tmod s eps.length).symm
      have hmlt : s % eps.length < eps.length := Nat.mod_lt s hL
      have hget : eps[s % eps.length]? = some (eps[s % eps.length]) :=
        List.getElem?_eq_getElem hmlt
      have hget' : eps.get? (s % eps.length) = some (eps[s % eps.length]) := by
        rw [List.get?_eq_getElem?]
        exact hget
      have hcond : (0 : Int) ≤ ((s % eps.length : Nat) : Int) ∧
          ((s % eps.length : Nat) : Int) < ((eps.length : Nat) : Int) :=
        ⟨Int.ofNat_nonneg _, by exact_mod_cast hmlt⟩
      conv_lhs => rw [rrLoop]
      rw [hidx0, htmod, hs1]
      rw [if_pos hcond]
      simp only [Int.toNat_natCast, hget']
      conv_rhs => rw [selectOff]
      simp only [hget, Worker.availableAt]
      by_cases hav : (eps[s % eps.length]).blockedUntil < now
      · rw [if_pos hav, if_pos hav]
        dsimp only
        simp only [Nat.add_zero, Nat.cast_zero, add_zero, enqueueAt, hget']
      · rw [if_neg hav, if_neg hav]
        rw [show (s : Int) + 1 = ((s + 1 : Nat) : Int) from by push_cast; ring]
        rw [ih (s + 1) hL (by push_cast; push_cast at hb; omega)]
        cases hsel : selectOff now eps (s + 1) fuel with
        | none =>
            simp only [hsel, Option.map_none']
            rw [show ((s + 1 : Nat) : Int) + (fuel : Int) = (s : Int) + ((fuel + 1 : Nat) : Int)
              from by push_cast; ring]
        | some j =>
            simp only [hsel, Option.map_some']
            rw [show s + 1 + j = s + (j + 1) from by omega,
              show ((s + 1 : Nat) : Int) + (j : Int) + 1 = (s : Int) + ((j + 1 : Nat) : Int) + 1
                from by push_cast; ring]

/-! ### Claim theorems -/

/-- C5: After any call to `Reset`, the failure-timestamp window is empty and
`blockedUntil` is the zero time, whatever the previous state; every other
worker field (point, identity, queue, stop channel) is unchanged. -/
theorem reset_clears_breaker (w : Worker) :
    w.Reset.errorTimestamps = [] ∧ w.Reset.blockedUntil = 0 ∧
    w.Reset.point = w.point ∧ w.Reset.id = w.id ∧
    w.Reset.messageQueue = w.messageQueue ∧ w.Reset.stopDefined = w.stopDefined :=
  ⟨rfl, rfl, rfl, rfl, rfl, rfl⟩

/-- C8: Every envelope built by `sendReturn` carries the worker's endpoint
identifier, and populates exactly one of response/error: success with a
response and no error, or failure with an error and no response. -/
theorem sendReturn_envelope_exclusive (w : Worker) (arg : SendArg) :
    (w.sendReturn arg).Point = w.point ∧
    (((w.sendReturn arg).Success = true ∧ (w.sendReturn arg).Response.isSome ∧
        (w.sendReturn arg).Error = none) ∨
      ((w.sendReturn arg).Success = false ∧ (w.sendReturn arg).Error.isSome ∧
        (w.sendReturn arg).Response = none)) := by
  cases arg <;> simp [Worker.sendReturn]

/-- C4: A panic while processing one message is converted at the loop boundary
into a failure envelope with `Success = false`, `Critical = true` and a
`[PANIC]`-tagged message carrying the worker's endpoint identifier; the loop
restarts with the breaker state untouched, and the remaining queue is
processed exactly as it would have been, one envelope per queued entry. -/
theorem panic_recovery_preserves_queue (cfg : Config) (w : Worker) (t : Time)
    (m : Payload) (s : String) (rest : List QEntry) :
    w.processQueue cfg ({ now := t, msg := m, outcome := .panicked s } :: rest) =
      (({ Point := w.point, Success := false, Response := none
          Error := some { Code := 0, Message := "[PANIC] " ++ s, Critical := true } } : Data)
        :: (w.processQueue cfg rest).1, (w.processQueue cfg rest).2) ∧
    (w.processQueue cfg ({ now := t, msg := m, outcome := .panicked s } :: rest)).1.length =
      rest.length + 1 := by
  constructor
  · simp [Worker.processQueue, Worker.handlerStep, Worker.sendReturn]
  · simp [processQueue_length]

/-- C9: `defaultOptions` maps every zero-valued configuration field to its
default (REST, round-robin, next, 5, 5s, 3s) and leaves every non-zero field,
and the endpoint list, unchanged. -/
theorem defaultOptions_spec (opt : Options) :
    (defaultOptions opt).Transport = (if opt.Transport = "" then REST else opt.Transport) ∧
    (defaultOptions opt).DeliveryMode =
      (if opt.DeliveryMode = "" then RoundRobin else opt.DeliveryMode) ∧
    (defaultOptions opt).RetryMode = (if opt.RetryMode = "" then Next else opt.RetryMode) ∧
    (defaultOptions opt).RetryLimit = (if opt.RetryLimit = 0 then 5 else opt.RetryLimit) ∧
    (defaultOptions opt).RetryTimeout =
      (if opt.RetryTimeout = 0 then 5 * second else opt.RetryTimeout) ∧
    (defaultOptions opt).RetryWindow =
      (if opt.RetryWindow = 0 then 3 * second else opt.RetryWindow) ∧
    (defaultOptions opt).EndPoints = opt.EndPoints := by
  obtain ⟨T, D, R, E, L, TO, W⟩ := opt
  refine ⟨?_, ?_, ?_, ?_, ?_, ?_, ?_⟩ <;>
    simp only [defaultOptions, apply_ite Options.Transport, apply_ite Options.DeliveryMode,
      apply_ite Options.RetryMode, apply_ite Options.RetryLimit, apply_ite Options.RetryTimeout,
      apply_ite Options.RetryWindow, apply_ite Options.EndPoints, ite_self]

/-- C1: evaluation of `Emit` against the claim.  With the single worker
blocked (or with no endpoints at all) `roundRobin` does return the
"all endpoints are blocked due to unavailability" error, but `Emit` discards
it and returns `nil`; with an available worker `Emit` also returns `nil` and
the payload is enqueued to that worker. -/
theorem emit_discards_selection_error :
    cBlocked.roundRobin 50 [7] =
      Except.ok (some allBlockedMsg, { cBlocked with roundRobinIndex := 1 }) ∧
    cBlocked.Emit 50 [7] = Except.ok (none, { cBlocked with roundRobinIndex := 1 }) ∧
    cEmpty.Emit 50 [7] = Except.ok (none, cEmpty) ∧
    cAvail.Emit 50 [7] =
      Except.ok (none,
        { cAvail with endPoints := [{ wAvail with messageQueue := [[7]] }], roundRobinIndex := 1 }) :=
  ⟨rfl, rfl, rfl, rfl⟩

/-- C10: with three available endpoints and the cursor at `-2147483648` (the
`int32` value reached after the counter wraps past its maximum), the computed
index `int(cursor.Add(1)-1) % 3` is `-2`, outside `[0, 3)`, and the worker
lookup in `roundRobin` is an out-of-range slice access (a runtime panic). -/
theorem roundRobin_negative_cursor_out_of_range :
    Int.tmod (wrap32 (wrap32 (-2147483648 + 1) - 1)) 3 = -2 ∧
    cWrapped.roundRobin 50 [7] = Except.error "runtime error: index out of range" ∧
    cWrapped.Emit 50 [7] = Except.error "runtime error: index out of range" :=
  ⟨by decide, rfl, rfl⟩

/-- C7: `DeleteEndpoint` is a no-op for an absent identifier, but for a live
worker built by `NewWorker` it panics with "close of nil channel" (the `stop`
channel is never initialized), instead of closing the worker and removing it
from the sequence. -/
theorem deleteEndpoint_close_panics :
    cA.DeleteEndpoint "b" = Except.ok cA ∧
    cA.DeleteEndpoint "a" = Except.error "close of nil channel" ∧
    (NewWorker "a" 0).stopDefined = false :=
  ⟨rfl, rfl, rfl⟩

/-- C6: `SyncEndPoint` panics with "close of nil channel" as soon as it must
remove a worker (workers built by `NewWorker` have a nil `stop` channel); when
no removal is needed it reconciles by appending fresh workers for the missing
identifiers, keeps retained workers in order without recreating them (same
allocation identities), and a second call with the same set is the
identity. -/
theorem syncEndPoint_close_panics :
    cA.SyncEndPoint [] 1 = Except.error "close of nil channel" ∧
    cA.SyncEndPoint ["a", "b"] 1 = Except.ok (cAB, 2) ∧
    cAB.SyncEndPoint ["a", "b"] 2 = Except.ok (cAB, 2) :=
  ⟨rfl, rfl, rfl⟩

/-- C2 (amended): on every `Inc`, the stored timestamps not strictly newer
than `now - retryWindow` are dropped (a timestamp exactly `retryWindow` old is
dropped too) and `now` is appended; `blockedUntil` becomes
`now + retryTimeout` exactly when the resulting count exceeds `retryLimit`
and `now` is strictly after `blockedUntil`, and is untouched otherwise; the
point and the queue are untouched.  Consequently a fresh worker that fails
`retryLimit + 1` times strictly within `retryWindow` has
`blockedUntil = lastFailure + retryTimeout`: it is unavailable until
`retryTimeout` has elapsed after the last failure and available again
afterwards with no further action. -/
theorem inc_breaker_spec :
    (∀ (cfg : Config) (now : Time) (w : Worker),
      (w.Inc cfg now).2.errorTimestamps =
        w.errorTimestamps.filter (fun t => now - cfg.retryWindow < t) ++ [now] ∧
      (w.Inc cfg now).2.blockedUntil =
        (if ((w.errorTimestamps.filter (fun t => now - cfg.retryWindow < t)).length + 1 : Int) >
              cfg.retryLimit ∧ w.blockedUntil < now
          then now + cfg.retryTimeout else w.blockedUntil) ∧
      (w.Inc cfg now).2.point = w.point ∧
      (w.Inc cfg now).2.messageQueue = w.messageQueue) ∧
    (∀ (cfg : Config) (w : Worker) (ts : List Time) (tl : Time),
      w.errorTimestamps = [] → w.blockedUntil = 0 →
      (∀ t ∈ ts ++ [tl], tl - cfg.retryWindow < t ∧ t ≤ tl) →
      (ts.length : Int) = cfg.retryLimit → 0 < tl →
      (w.incMany cfg (ts ++ [tl])).blockedUntil = tl + cfg.retryTimeout ∧
      (∀ n : Time, n ≤ tl + cfg.retryTimeout → ¬ (w.incMany cfg (ts ++ [tl])).availableAt n) ∧
      (∀ n : Time, tl + cfg.retryTimeout < n → (w.incMany cfg (ts ++ [tl])).availableAt n)) := by
  constructor
  · intro cfg now w
    have hlapp : (((w.errorTimestamps.filter (fun t => decide (now - cfg.retryWindow < t)) ++
        [now]).length : Nat) : Int) =
        ((w.errorTimestamps.filter (fun t => decide (now - cfg.retryWindow < t))).length : Int) +
          1 := by
      simp
    simp only [Worker.Inc]
    by_cases hc : ((w.errorTimestamps.filter (fun t => decide (now - cfg.retryWindow < t)) ++
        [now]).length : Int) > cfg.retryLimit
    · rw [if_pos hc]
      rw [hlapp] at hc
      by_cases hb : w.blockedUntil < now
      · rw [if_pos hb]
        exact ⟨rfl, by rw [if_pos ⟨hc, hb⟩], rfl, rfl⟩
      · rw [if_neg hb]
        exact ⟨rfl, by rw [if_neg (fun h => hb h.2)], rfl, rfl⟩
    · rw [if_neg hc]
      rw [hlapp] at hc
      exact ⟨rfl, by rw [if_neg (fun h => hc h.1)], rfl, rfl⟩
  · intro cfg w ts tl h0 hb hmem hlen htl
    have h1 : w.incMany cfg ts = { w with errorTimestamps := ts } := by
      have := incMany_no_block cfg (tl - cfg.retryWindow) ts w hb
        (by rw [h0]; intro x hx; cases hx)
        (fun t ht => ⟨(hmem t (List.mem_append_left _ ht)).1,
          by have := (hmem t (List.mem_append_left _ ht)).2; linarith⟩)
        (by rw [h0]; simpa using le_of_eq hlen)
      rw [this, h0]
      simp
    have hkeep2 : ts.filter (fun t => decide (tl - cfg.retryWindow < t)) = ts := by
      refine List.filter_eq_self.mpr (fun x hx => ?_)
      simpa using (hmem x (List.mem_append_left _ hx)).1
    have hcount2 : (((ts ++ [tl]).length : Nat) : Int) > cfg.retryLimit := by
      have he : (((ts ++ [tl]).length : Nat) : Int) = (ts.length : Int) + 1 := by simp
      rw [he, hlen]
      linarith
    have hmain : w.incMany cfg (ts ++ [tl]) =
        { w with errorTimestamps := ts ++ [tl], blockedUntil := tl + cfg.retryTimeout } := by
      rw [incMany_append, h1]
      simp only [Worker.incMany, Worker.Inc]
      rw [hkeep2]
      rw [if_pos hcount2]
      rw [hb]
      rw [if_pos htl]
    refine ⟨by rw [hmain], fun n hn => ?_, fun n hn => ?_⟩
    · simp only [Worker.availableAt, hmain, not_lt]
      linarith
    · simp only [Worker.availableAt, hmain]
      linarith

/-- C2 witness: a fresh worker with `retryLimit = 1`, `retryTimeout = 5`,
`retryWindow = 3` failing at times 1 and 2 gets `blockedUntil = 2 + 5`, is
unavailable at time 7 and available at time 8. -/
theorem inc_breaker_spec_witness :
    ((NewWorker "a" 0).incMany ⟨1, 5, 3⟩ ([1] ++ [2])).blockedUntil = 2 + 5 ∧
    ¬ ((NewWorker "a" 0).incMany ⟨1, 5, 3⟩ ([1] ++ [2])).availableAt 7 ∧
    ((NewWorker "a" 0).incMany ⟨1, 5, 3⟩ ([1] ++ [2])).availableAt 8 :=
  ⟨(inc_breaker_spec.2 ⟨1, 5, 3⟩ (NewWorker "a" 0) [1] 2 rfl rfl (by decide) (by decide)
      (by decide)).1,
    (inc_breaker_spec.2 ⟨1, 5, 3⟩ (NewWorker "a" 0) [1] 2 rfl rfl (by decide) (by decide)
      (by decide)).2.1 7 (by decide),
    (inc_breaker_spec.2 ⟨1, 5, 3⟩ (NewWorker "a" 0) [1] 2 rfl rfl (by decide) (by decide)
      (by decide)).2.2 8 (by decide)⟩

/-- C2 counterexample: a failure timestamp exactly `retryWindow` old is
dropped by the code (`timestamp.After(windowStart)` is strict) but kept under
the claim's "older than `now - retryWindow`" reading, so at `retryLimit = 1`
the two disagree on whether the worker trips: the code leaves `blockedUntil`
at 0 and reports unblocked, the claim's reading sets `blockedUntil = 8` and
reports blocked. -/
theorem inc_window_boundary_cex :
    (Worker.Inc ⟨1, 5, 3⟩ 3 { wAvail with errorTimestamps := [0] }).2.blockedUntil = 0 ∧
    (Worker.Inc ⟨1, 5, 3⟩ 3 { wAvail with errorTimestamps := [0] }).1 = false ∧
    (Worker.IncClaim ⟨1, 5, 3⟩ 3 { wAvail with errorTimestamps := [0] }).2.blockedUntil = 8 ∧
    (Worker.IncClaim ⟨1, 5, 3⟩ 3 { wAvail with errorTimestamps := [0] }).1 = true := by
  refine ⟨?_, ?_, ?_, ?_⟩ <;> decide

/-- When every endpoint is available, a single `Emit` in round-robin mode
enqueues the payload at position `cursor mod N` and advances the cursor by
one. -/
theorem emit_step (now : Time) (d : Payload) (c : State) (s : Nat)
    (hdm : c.deliveryMode = RoundRobin) (hL : 0 < c.endPoints.length)
    (hav : ∀ w ∈ c.endPoints, w.blockedUntil < now)
    (hcur : c.roundRobinIndex = (s : Int))
    (hb : (s : Int) + (c.endPoints.length : Int) < 2 ^ 31) :
    c.Emit now d = Except.ok (none,
      { c with
        endPoints := enqueueAt c.endPoints (s % c.endPoints.length) d
        roundRobinIndex := (s : Int) + 1 }) := by
  have hsel : selectOff now c.endPoints s c.endPoints.length = some 0 := by
    obtain ⟨n, hn⟩ : ∃ n, c.endPoints.length = n + 1 :=
      ⟨c.endPoints.length - 1, by omega⟩
    rw [hn]
    exact selectOff_head_avail now c.endPoints s n hL hav
  unfold State.Emit
  rw [if_pos hdm]
  unfold State.roundRobin
  rw [hcur]
  rw [rrLoop_spec now d c.endPoints c.endPoints.length s hL hb]
  rw [hsel]
  simp [Except.map]

/-- Under full availability a sequence of emits advances the cursor by one per
payload and leaves the endpoint identities, deadlines and count unchanged. -/
theorem emitSeq_spec (now : Time) (ds : List Payload) :
    ∀ (c : State) (s : Nat),
      c.deliveryMode = RoundRobin → 0 < c.endPoints.length →
      (∀ w ∈ c.endPoints, w.blockedUntil < now) →
      c.roundRobinIndex = (s : Int) →
      ((s : Int) + (ds.length : Int) + (c.endPoints.length : Int) < 2 ^ 31) →
      ∃ c', c.emitSeq now ds = Except.ok c' ∧
        c'.deliveryMode = c.deliveryMode ∧
        c'.endPoints.length = c.endPoints.length ∧
        c'.roundRobinIndex = ((s + ds.length : Nat) : Int) ∧
        c'.endPoints.map Worker.point = c.endPoints.map Worker.point ∧
        (∀ w ∈ c'.endPoints, w.blockedUntil < now) := by
  induction ds with
  | nil =>
      intro c s h1 h2 h3 h4 h5
      exact ⟨c, rfl, rfl, rfl, by simpa using h4, rfl, h3⟩
  | cons d ds ih =>
      intro c s h1 h2 h3 h4 h5
      have hb1 : (s : Int) + (c.endPoints.length : Int) < 2 ^ 31 := by
        push_cast at h5 ⊢
        omega
      have hstep := emit_step now d c s h1 h2 h3 h4 hb1
      have hlen1 : (enqueueAt c.endPoints (s % c.endPoints.length) d).length =
          c.endPoints.length := enqueueAt_length _ _ _
      have hav1 : ∀ w ∈ enqueueAt c.endPoints (s % c.endPoints.length) d,
          w.blockedUntil < now := by
        intro w hw
        obtain ⟨w0, hw0, he⟩ := enqueueAt_blockedUntil _ _ _ _ hw
        rw [he]
        exact h3 w0 hw0
      obtain ⟨c', he, hdm', hlen', hcur', hpts', hav'⟩ :=
        ih { c with
              endPoints := enqueueAt c.endPoints (s % c.endPoints.length) d
              roundRobinIndex := (s : Int) + 1 }
          (s + 1) h1 (by dsimp only; rw [hlen1]; exact h2) hav1 (by push_cast; ring)
          (by
            dsimp only
            rw [hlen1]
            simp only [List.length_cons] at h5
            push_cast at h5 ⊢
            omega)
      refine ⟨c', ?_, hdm', hlen'.trans hlen1, ?_, ?_, hav'⟩
      · show (do
            let r ← c.Emit now d
            State.emitSeq now r.2 ds) = Except.ok c'
        rw [hstep]
        exact he
      · rw [hcur']
        simp only [List.length_cons]
        push_cast
        ring
      · rw [hpts']
        exact enqueueAt_map Worker.point (fun _ _ => rfl) _ _ _

/-- C3: when every endpoint is available (strictly past its `blockedUntil`),
after `N` successive emits from cursor `s` the next emit enqueues its payload
at the endpoint at index `(s + N) mod len(endpoints)` and advances the cursor
once more (endpoint identities unchanged throughout); and in general the
selection loop attempts at most `fuel` candidates starting at the cursor
modulo the endpoint count, advancing by one per attempt, delivering to the
first candidate with `blockedUntil` strictly before the current time
(provided the nonnegative cursor cannot wrap during the call). -/
theorem roundRobin_delivery_order :
    (∀ (now : Time) (c : State) (ds : List Payload) (d : Payload) (s : Nat),
      c.deliveryMode = RoundRobin →
      0 < c.endPoints.length →
      (∀ w ∈ c.endPoints, w.blockedUntil < now) →
      c.roundRobinIndex = (s : Int) →
      ((s : Int) + (ds.length : Int) + (c.endPoints.length : Int) < 2 ^ 31) →
      ∃ c', c.emitSeq now ds = Except.ok c' ∧
        c'.endPoints.map Worker.point = c.endPoints.map Worker.point ∧
        c'.roundRobinIndex = ((s + ds.length : Nat) : Int) ∧
        c'.Emit now d = Except.ok (none,
          { c' with
            endPoints := enqueueAt c'.endPoints ((s + ds.length) % c.endPoints.length) d
            roundRobinIndex := ((s + ds.length : Nat) : Int) + 1 })) ∧
    (∀ (now : Time) (data : Payload) (eps : List Worker) (fuel s : Nat),
      0 < eps.length → ((s : Int) + (fuel : Int) < 2 ^ 31) →
      rrLoop now data eps (s : Int) fuel =
        (match selectOff now eps s fuel with
          | some j =>
              Except.ok (none, enqueueAt eps ((s + j) % eps.length) data, ((s : Int) + j + 1))
          | none => Except.ok (some allBlockedMsg, eps, (s : Int) + fuel))) := by
  constructor
  · intro now c ds d s h1 h2 h3 h4 h5
    obtain ⟨c', he, hdm', hlen', hcur', hpts', hav'⟩ := emitSeq_spec now ds c s h1 h2 h3 h4 h5
    refine ⟨c', he, hpts', hcur', ?_⟩
    have hstep := emit_step now d c' (s + ds.length) (hdm'.trans h1)
      (by rw [hlen']; exact h2) hav' hcur'
      (by rw [hlen']; push_cast at h5 ⊢; omega)
    rw [hstep, hlen']
  · intro now data eps fuel s hL hb
    exact rrLoop_spec now data eps fuel s hL hb

/-- C3 witness: one available endpoint, cursor 0, no prior emits: the next
emit enqueues its payload at index `(0 + 0) mod 1 = 0` and advances the
cursor to 1. -/
theorem roundRobin_delivery_order_witness :
    (cAvail.deliveryMode = RoundRobin ∧ 0 < cAvail.endPoints.length ∧
      (∀ w ∈ cAvail.endPoints, w.blockedUntil < 50) ∧
      cAvail.roundRobinIndex = ((0 : Nat) : Int) ∧
      (((0 : Nat) : Int) + (([] : List Payload).length : Int) +
        (cAvail.endPoints.length : Int) < 2 ^ 31)) ∧
    (∃ c', cAvail.emitSeq 50 [] = Except.ok c' ∧
      c'.endPoints.map Worker.point = cAvail.endPoints.map Worker.point ∧
      c'.roundRobinIndex = ((0 + ([] : List Payload).length : Nat) : Int) ∧
      c'.Emit 50 [7] = Except.ok (none,
        { c' with
          endPoints := enqueueAt c'.endPoints
            ((0 + ([] : List Payload).length) % cAvail.endPoints.length) [7]
          roundRobinIndex := ((0 + ([] : List Payload).length : Nat) : Int) + 1 })) :=
  ⟨⟨rfl, by decide, by decide, rfl, by decide⟩,
    roundRobin_delivery_order.1 50 cAvail [] [7] 0 rfl (by decide) (by decide) rfl (by decide)⟩

end Callback
